import Mathlib

/-!
Verification of the TABITABO reconciliation engine (src/app.py).

The engine consists of three pure functions:
* calculate_similarity: case-insensitive Levenshtein distance of two column names;
* find_best_match: greedy scan of candidates, threshold 3, strict-improvement tie-break;
* create_decision_table: per-target-column decision rows with a consumed set of
  source column names.

Python strings are modelled as lists of Unicode code points (List Nat).
str.lower and str.upper apply the Unicode full case mappings, under which one
code point maps to a string of code points, so case mapping can change length:
sharp s uppercases to SS, dotted capital I lowercases to two code points.  The
mappings are encoded here on the code points this development evaluates --
ASCII, the Latin-1 letters and the length-changing special cases -- and are
the identity elsewhere; on ASCII strings the encoding agrees with Python
exactly.  Edit distance is Mathlib's levenshtein with the default unit-cost
structure, the distance computed by the python-Levenshtein library.
-/

namespace Tabitabo

/-- Python strings, as lists of Unicode code points. -/
abbrev PyStr := List Nat

/-- Code points of a Lean string literal, used to write concrete Python strings. -/
def pystr (s : String) : PyStr := s.toList.map Char.toNat

/-- Unicode full lowercase mapping of one code point, as applied by str.lower:
a code point maps to a string of code points.  Encoded on the code points this
development evaluates: ASCII letters, the Latin-1 capital letters, capital Y
with diaeresis, and dotted capital I, whose lowercase is the two code points
small i followed by combining dot above; identity on all other code points. -/
def lowerChar (n : Nat) : List Nat :=
  if 65 ≤ n ∧ n ≤ 90 then [n + 32]
  else if 192 ≤ n ∧ n ≤ 222 ∧ n ≠ 215 then [n + 32]
  else if n = 376 then [255]
  else if n = 304 then [105, 775]
  else [n]

/-- Unicode full uppercase mapping of one code point, as applied by str.upper:
a code point maps to a string of code points.  Encoded on the code points this
development evaluates: ASCII letters, the Latin-1 small letters, sharp s,
whose uppercase is the two code points SS, y with diaeresis, dotless i, and
the micro sign; identity on all other code points. -/
def upperChar (n : Nat) : List Nat :=
  if 97 ≤ n ∧ n ≤ 122 then [n - 32]
  else if n = 223 then [83, 83]
  else if 224 ≤ n ∧ n ≤ 254 ∧ n ≠ 247 then [n - 32]
  else if n = 255 then [376]
  else if n = 305 then [73]
  else if n = 181 then [924]
  else [n]

/-- str.lower: each code point replaced by its full lowercase mapping. -/
def lower (s : PyStr) : PyStr := s.flatMap lowerChar

/-- str.upper: each code point replaced by its full uppercase mapping. -/
def upper (s : PyStr) : PyStr := s.flatMap upperChar

/-- The single-code-point ASCII lowercase shift; str.lower agrees with it,
pointwise and length-preservingly, on ASCII strings. -/
def lowerCP (n : Nat) : Nat := if 65 ≤ n ∧ n ≤ 90 then n + 32 else n

/-- The single-code-point ASCII uppercase shift; str.upper agrees with it,
pointwise and length-preservingly, on ASCII strings. -/
def upperCP (n : Nat) : Nat := if 97 ≤ n ∧ n ≤ 122 then n - 32 else n

/-- Strings of ASCII code points, on which the full case mappings are
single-code-point and length preserving. -/
abbrev ascii (s : PyStr) : Prop := ∀ n ∈ s, n ≤ 127

/-- calculate_similarity from src/app.py lines 13-24: the Levenshtein distance
between the two column names after lowercasing both. -/
def calculate_similarity (col1 col2 : PyStr) : Nat :=
  levenshtein Levenshtein.defaultCost (lower col1) (lower col2)

/-- Comparison of a candidate distance with the running best_distance of
find_best_match; none models the initial float(Inf). -/
def ltInf (d : Nat) : Option Nat → Bool
  | none => true
  | some bd => decide (d < bd)

/-- Loop of find_best_match (src/app.py lines 42-46), carrying the two loop
variables best_match and best_distance. -/
def find_best_match_go (target_col : PyStr) :
    List PyStr → Option PyStr → Option Nat → Option PyStr
  | [], best_match, _ => best_match
  | source_col :: rest, best_match, best_distance =>
    let distance := calculate_similarity target_col source_col
    if distance ≤ 3 ∧ ltInf distance best_distance = true then
      find_best_match_go target_col rest (some source_col) (some distance)
    else
      find_best_match_go target_col rest best_match best_distance

/-- find_best_match from src/app.py lines 27-48: the first candidate attaining
the minimal distance not exceeding 3, none if every candidate is farther. -/
def find_best_match (target_col : PyStr) (source_cols : List PyStr) : Option PyStr :=
  find_best_match_go target_col source_cols none none

/-- One row of a table's metadata: a column name and its comment. -/
structure ColumnMeta where
  column_name : PyStr
  comment : PyStr
deriving DecidableEq

/-- One row of the decision table built by create_decision_table. -/
structure DecisionRow where
  sostituire : Bool
  colonna_tabo : PyStr
  comment_tabo : PyStr
  colonna_tabi : PyStr
  comment_tabi : PyStr
  descrizione_proposta : PyStr
deriving DecidableEq

/-- The comment lookup of src/app.py line 153: the comment of the first row of
tabi_metadata whose column_name equals the given name (iloc[0] on the boolean
filter); defaults to the empty string when no row matches. -/
def lookup_comment (tabi_metadata : List ColumnMeta) (name : PyStr) : PyStr :=
  ((tabi_metadata.find? fun r => r.column_name == name).map ColumnMeta.comment).getD []

/-- The candidate pool of src/app.py lines 143-144: source column names not yet
consumed, in source-table order. -/
def available_cols (tabi_metadata : List ColumnMeta) (used : List PyStr) : List PyStr :=
  (tabi_metadata.map ColumnMeta.column_name).filter fun c => decide (c ∉ used)

/-- The body of the loop of create_decision_table (src/app.py lines 138-170) for
one target column: the emitted DecisionRow and the updated consumed set.  The
truthiness test if best_match treats the empty string like None. -/
def decision_step (tabi_metadata : List ColumnMeta) (tabo_row : ColumnMeta)
    (used : List PyStr) : DecisionRow × List PyStr :=
  let tabo_col := tabo_row.column_name
  let tabo_comment := tabo_row.comment
  let best_match := find_best_match tabo_col (available_cols tabi_metadata used)
  let st : PyStr × PyStr × List PyStr :=
    match best_match with
    | some bm =>
      if bm = [] then ([], [], used)
      else (bm, lookup_comment tabi_metadata bm, bm :: used)
    | none => ([], [], used)
  let descrizione_proposta : PyStr :=
    if tabo_comment ≠ [] then tabo_comment
    else if st.2.1 ≠ [] then st.2.1
    else []
  (⟨true, tabo_col, tabo_comment, st.1, st.2.1, descrizione_proposta⟩, st.2.2)

/-- The loop of create_decision_table over the target columns, threading the
consumed set used_tabi_cols. -/
def create_decision_table_go (tabi_metadata : List ColumnMeta) :
    List ColumnMeta → List PyStr → List DecisionRow
  | [], _ => []
  | tabo_row :: rest, used =>
    let p := decision_step tabi_metadata tabo_row used
    p.1 :: create_decision_table_go tabi_metadata rest p.2

/-- create_decision_table from src/app.py lines 124-172. -/
def create_decision_table (tabi_metadata tabo_metadata : List ColumnMeta) :
    List DecisionRow :=
  create_decision_table_go tabi_metadata tabo_metadata []

/-- Source table of the reference scenario of src/test_logic.py. -/
def tabi_ref : List ColumnMeta :=
  [⟨pystr "customer_id", pystr "Unique customer identifier"⟩,
   ⟨pystr "first_name", pystr "Customer first name"⟩,
   ⟨pystr "last_name", pystr "Customer last name"⟩,
   ⟨pystr "email", pystr "Email address"⟩]

/-- Target table of the reference scenario of src/test_logic.py. -/
def tabo_ref : List ColumnMeta :=
  [⟨pystr "user_id", pystr ""⟩,
   ⟨pystr "firstname", pystr ""⟩,
   ⟨pystr "lastname", pystr ""⟩,
   ⟨pystr "email_addr", pystr ""⟩,
   ⟨pystr "status", pystr "User status"⟩]

/-- The user_id row of the reference decision table. -/
def row_user_id : DecisionRow := ⟨true, pystr "user_id", [], [], [], []⟩

/-- The firstname row of the reference decision table. -/
def row_firstname : DecisionRow :=
  ⟨true, pystr "firstname", [], pystr "first_name", pystr "Customer first name",
    pystr "Customer first name"⟩

/-- A source table with a duplicated column name, exercising the ambiguous
lookup of C8. -/
def tabi_dup : List ColumnMeta := [⟨pystr "ab", pystr "one"⟩, ⟨pystr "ab", pystr "two"⟩]

/-- A target table matching the duplicated name. -/
def tabo_dup : List ColumnMeta := [⟨pystr "ab", pystr ""⟩]

/-- The row produced for tabo_dup against tabi_dup. -/
def row_dup : DecisionRow := ⟨true, pystr "ab", [], pystr "ab", pystr "one", pystr "one"⟩

/-- A source table whose only column is named by the empty string. -/
def tabi_empty_name : List ColumnMeta := [⟨[], pystr "c"⟩]

/-- A target column within distance 3 of the empty string. -/
def col_ab : ColumnMeta := ⟨pystr "ab", []⟩

/-! Helper lemmas about the unit-cost Levenshtein distance. -/

/-- Distance from the empty string equals the other string's length. -/
theorem lev_nil_left (ys : List Nat) :
    levenshtein Levenshtein.defaultCost ([] : List Nat) ys = ys.length := by
  induction ys with
  | nil => simp
  | cons y ys ih => simp [ih]; omega

/-- Distance to the empty string equals the other string's length. -/
theorem lev_nil_right (xs : List Nat) :
    levenshtein Levenshtein.defaultCost xs ([] : List Nat) = xs.length := by
  induction xs with
  | nil => simp
  | cons x xs ih => simp [ih]; omega

/-- Distance of a string to itself is zero. -/
theorem lev_self (xs : List Nat) :
    levenshtein Levenshtein.defaultCost xs xs = 0 := by
  induction xs with
  | nil => simp
  | cons x xs ih =>
    rw [levenshtein_cons_cons]
    simp [ih]

/-- Unit-cost Levenshtein distance is symmetric. -/
theorem lev_comm (xs : List Nat) :
    ∀ ys : List Nat,
      levenshtein Levenshtein.defaultCost xs ys =
        levenshtein Levenshtein.defaultCost ys xs := by
  induction xs with
  | nil =>
    intro ys
    rw [lev_nil_left, lev_nil_right]
  | cons x xs ihx =>
    intro ys
    induction ys with
    | nil => rw [lev_nil_left, lev_nil_right]
    | cons y ys ihy =>
      rw [levenshtein_cons_cons, levenshtein_cons_cons,
        ihx (y :: ys), ihy, ihx ys]
      have hsub : (Levenshtein.defaultCost.substitute x y : Nat) =
          Levenshtein.defaultCost.substitute y x := by
        by_cases h : x = y <;> simp [Levenshtein.defaultCost, h, eq_comm]
      rw [hsub]
      simp only [Levenshtein.defaultCost_delete, Levenshtein.defaultCost_insert]
      omega

/-! Helper lemmas about the ASCII case mapping. -/

/-- Lowercasing is idempotent per code point. -/
theorem lowerCP_idem (n : Nat) : lowerCP (lowerCP n) = lowerCP n := by
  by_cases h : 65 ≤ n ∧ n ≤ 90
  · have h1 : lowerCP n = n + 32 := if_pos h
    rw [h1]
    simp only [lowerCP]
    rw [if_neg (by omega)]
  · have h1 : lowerCP n = n := if_neg h
    rw [h1]
    exact h1

/-- Lowercasing after uppercasing equals lowercasing, per code point. -/
theorem lowerCP_upperCP (n : Nat) : lowerCP (upperCP n) = lowerCP n := by
  by_cases h : 97 ≤ n ∧ n ≤ 122
  · have h1 : upperCP n = n - 32 := if_pos h
    rw [h1]
    simp only [lowerCP]
    rw [if_pos (by omega), if_neg (by omega)]
    omega
  · have h1 : upperCP n = n := if_neg h
    rw [h1]

/-- The ASCII lowercase shift keeps code points ASCII. -/
theorem lowerCP_le (n : Nat) (h : n ≤ 127) : lowerCP n ≤ 127 := by
  simp only [lowerCP]
  split <;> omega

/-- The ASCII uppercase shift keeps code points ASCII. -/
theorem upperCP_le (n : Nat) (h : n ≤ 127) : upperCP n ≤ 127 := by
  simp only [upperCP]
  split <;> omega

/-- On an ASCII code point the full lowercase mapping is the ASCII shift. -/
theorem lowerChar_ascii (n : Nat) (h : n ≤ 127) : lowerChar n = [lowerCP n] := by
  simp only [lowerChar, lowerCP]
  by_cases h1 : 65 ≤ n ∧ n ≤ 90
  · rw [if_pos h1, if_pos h1]
  · rw [if_neg h1, if_neg (by omega), if_neg (by omega), if_neg (by omega), if_neg h1]

/-- On an ASCII code point the full uppercase mapping is the ASCII shift. -/
theorem upperChar_ascii (n : Nat) (h : n ≤ 127) : upperChar n = [upperCP n] := by
  simp only [upperChar, upperCP]
  by_cases h1 : 97 ≤ n ∧ n ≤ 122
  · rw [if_pos h1, if_pos h1]
  · rw [if_neg h1, if_neg (by omega), if_neg (by omega), if_neg (by omega),
      if_neg (by omega), if_neg (by omega), if_neg h1]

/-- On ASCII strings str.lower is the code-point-wise ASCII shift. -/
theorem lower_ascii (s : PyStr) (h : ascii s) : lower s = s.map lowerCP := by
  induction s with
  | nil => rfl
  | cons n s ih =>
    have hn : n ≤ 127 := h n (List.mem_cons_self n s)
    have hs : ascii s := fun m hm => h m (List.mem_cons_of_mem _ hm)
    rw [show lower (n :: s) = lowerChar n ++ lower s from rfl,
      lowerChar_ascii n hn, ih hs]
    rfl

/-- On ASCII strings str.upper is the code-point-wise ASCII shift. -/
theorem upper_ascii (s : PyStr) (h : ascii s) : upper s = s.map upperCP := by
  induction s with
  | nil => rfl
  | cons n s ih =>
    have hn : n ≤ 127 := h n (List.mem_cons_self n s)
    have hs : ascii s := fun m hm => h m (List.mem_cons_of_mem _ hm)
    rw [show upper (n :: s) = upperChar n ++ upper s from rfl,
      upperChar_ascii n hn, ih hs]
    rfl

/-- The ASCII lowercase shift keeps strings ASCII. -/
theorem ascii_map_lowerCP (s : PyStr) (h : ascii s) : ascii (s.map lowerCP) := by
  intro m hm
  rcases List.mem_map.mp hm with ⟨n, hn, rfl⟩
  exact lowerCP_le n (h n hn)

/-- The ASCII uppercase shift keeps strings ASCII. -/
theorem ascii_map_upperCP (s : PyStr) (h : ascii s) : ascii (s.map upperCP) := by
  intro m hm
  rcases List.mem_map.mp hm with ⟨n, hn, rfl⟩
  exact upperCP_le n (h n hn)

/-- Lowercasing a lowercased ASCII string changes nothing. -/
theorem lower_lower (s : PyStr) (h : ascii s) : lower (lower s) = lower s := by
  rw [lower_ascii s h, lower_ascii _ (ascii_map_lowerCP s h), List.map_map,
    show s.map lowerCP = lower s from (lower_ascii s h).symm, lower_ascii s h]
  simp [Function.comp_def, lowerCP_idem]

/-- Lowercasing an uppercased ASCII string equals lowercasing the original. -/
theorem lower_upper (s : PyStr) (h : ascii s) : lower (upper s) = lower s := by
  rw [upper_ascii s h, lower_ascii _ (ascii_map_upperCP s h), List.map_map,
    lower_ascii s h]
  simp [Function.comp_def, lowerCP_upperCP]

/-- Lowercasing preserves the length of ASCII strings. -/
theorem length_lower (s : PyStr) (h : ascii s) : (lower s).length = s.length := by
  rw [lower_ascii s h]
  simp

/-- C6 counterexample: under the Unicode full case mappings applied by
str.lower and str.upper, case-insensitivity fails at sharp s, code point 223,
scored 0 against itself but 2 after lower/upper since its uppercase is SS; and
the empty-string law fails at dotted capital I, code point 304, of length 1
but whose lowercase has 2 code points. -/
theorem calculate_similarity_case_counterexample :
    calculate_similarity [223] [223] ≠
      calculate_similarity (lower [223]) (upper [223]) ∧
    calculate_similarity [] [304] ≠ ([304] : PyStr).length := by
  constructor <;> decide

/-- C6 (amended): the similarity scorer is symmetric and zero on equal strings
for all strings; restricted to ASCII strings, where the case mappings are
single-code-point and length preserving, it is case-insensitive and an empty
input scores the length of the other string. -/
theorem calculate_similarity_algebraic (a b : PyStr) :
    calculate_similarity a b = calculate_similarity b a ∧
    calculate_similarity a a = 0 ∧
    (ascii a → ascii b →
      calculate_similarity a b = calculate_similarity (lower a) (upper b)) ∧
    (ascii b → calculate_similarity [] b = b.length) ∧
    (ascii a → calculate_similarity a [] = a.length) := by
  refine ⟨lev_comm (lower a) (lower b), lev_self (lower a), ?_, ?_, ?_⟩
  · intro ha hb
    unfold calculate_similarity
    rw [lower_lower a ha, lower_upper b hb]
  · intro hb
    unfold calculate_similarity
    rw [show lower [] = ([] : List Nat) from rfl, lev_nil_left, length_lower b hb]
  · intro ha
    unfold calculate_similarity
    rw [show lower [] = ([] : List Nat) from rfl, lev_nil_right, length_lower a ha]

/-- Witness for C6 at the ASCII inputs First_Name and firstname. -/
theorem calculate_similarity_algebraic_witness :
    ascii (pystr "First_Name") ∧ ascii (pystr "firstname") ∧
    calculate_similarity (pystr "First_Name") (pystr "firstname") =
      calculate_similarity (lower (pystr "First_Name")) (upper (pystr "firstname")) ∧
    calculate_similarity [] (pystr "firstname") = (pystr "firstname").length ∧
    calculate_similarity (pystr "First_Name") [] = (pystr "First_Name").length :=
  ⟨by decide, by decide,
    (calculate_similarity_algebraic (pystr "First_Name") (pystr "firstname")).2.2.1
      (by decide) (by decide),
    (calculate_similarity_algebraic (pystr "First_Name") (pystr "firstname")).2.2.2.1
      (by decide),
    (calculate_similarity_algebraic (pystr "First_Name") (pystr "firstname")).2.2.2.2
      (by decide)⟩

/-! Helper lemmas about the matcher loop. -/

/-- A result of the matcher loop is the incoming best or one of the candidates. -/
theorem fbm_go_mem (t : PyStr) :
    ∀ (cands : List PyStr) (b : Option PyStr) (d : Option Nat) (m : PyStr),
      find_best_match_go t cands b d = some m → b = some m ∨ m ∈ cands := by
  intro cands
  induction cands with
  | nil => intro b d m h; exact Or.inl h
  | cons c rest ih =>
    intro b d m h
    simp only [find_best_match_go] at h
    split at h
    · rcases ih _ _ _ h with h1 | h1
      · obtain rfl := Option.some.inj h1
        exact Or.inr (List.mem_cons_self c rest)
      · exact Or.inr (List.mem_cons_of_mem _ h1)
    · rcases ih _ _ _ h with h1 | h1
      · exact Or.inl h1
      · exact Or.inr (List.mem_cons_of_mem _ h1)

/-- Once a best candidate is recorded the loop never returns to none. -/
theorem fbm_go_isSome (t : PyStr) :
    ∀ (cands : List PyStr) (x : PyStr) (d : Option Nat),
      (find_best_match_go t cands (some x) d).isSome := by
  intro cands
  induction cands with
  | nil => intro x d; rfl
  | cons c rest ih =>
    intro x d
    simp only [find_best_match_go]
    split
    · exact ih c (some (calculate_similarity t c))
    · exact ih x d

/-- The loop only ever records candidates within the threshold. -/
theorem fbm_go_le_three (t : PyStr) :
    ∀ (cands : List PyStr) (b : Option PyStr) (d : Option Nat) (m : PyStr),
      (∀ y, b = some y → calculate_similarity t y ≤ 3) →
      find_best_match_go t cands b d = some m → calculate_similarity t m ≤ 3 := by
  intro cands
  induction cands with
  | nil => intro b d m hb h; exact hb m h
  | cons c rest ih =>
    intro b d m hb h
    simp only [find_best_match_go] at h
    split at h
    · rename_i hcond
      exact ih _ _ m (fun y hy => (Option.some.inj hy) ▸ hcond.1) h
    · exact ih _ _ m hb h

/-- From the initial state the loop returns none exactly when no candidate is
within the threshold. -/
theorem fbm_go_none_iff (t : PyStr) :
    ∀ cands : List PyStr,
      (find_best_match_go t cands none none = none ↔
        ∀ c ∈ cands, ¬ calculate_similarity t c ≤ 3) := by
  intro cands
  induction cands with
  | nil => simp [find_best_match_go]
  | cons c rest ih =>
    simp only [find_best_match_go]
    constructor
    · intro h
      by_cases hc : calculate_similarity t c ≤ 3
      · rw [if_pos ⟨hc, rfl⟩] at h
        have hs := fbm_go_isSome t rest c (some (calculate_similarity t c))
        rw [h] at hs
        cases hs
      · rw [if_neg (fun hh => hc hh.1)] at h
        intro c' hc'
        rcases List.mem_cons.mp hc' with rfl | hmem
        · exact hc
        · exact ih.mp h c' hmem
    · intro h
      rw [if_neg (fun hh => (h c (List.mem_cons_self c rest)) hh.1)]
      exact ih.mpr fun c' hc' => h c' (List.mem_cons_of_mem _ hc')

/-- Starting from a recorded best x within the threshold, the loop either keeps
x, with every later qualifying candidate no closer, or returns the first
candidate attaining a strictly smaller minimal qualifying distance. -/
theorem fbm_go_first_min (t : PyStr) :
    ∀ (cands : List PyStr) (x m : PyStr),
      calculate_similarity t x ≤ 3 →
      find_best_match_go t cands (some x) (some (calculate_similarity t x)) = some m →
      (m = x ∧ ∀ c ∈ cands, calculate_similarity t c ≤ 3 →
          calculate_similarity t x ≤ calculate_similarity t c) ∨
      (∃ l1 l2, cands = l1 ++ m :: l2 ∧
        calculate_similarity t m ≤ 3 ∧
        calculate_similarity t m < calculate_similarity t x ∧
        (∀ c ∈ l1, calculate_similarity t c ≤ 3 →
          calculate_similarity t m < calculate_similarity t c) ∧
        (∀ c ∈ l2, calculate_similarity t c ≤ 3 →
          calculate_similarity t m ≤ calculate_similarity t c)) := by
  intro cands
  induction cands with
  | nil =>
    intro x m hx h
    exact Or.inl ⟨(Option.some.inj h).symm, by simp⟩
  | cons c rest ih =>
    intro x m hx h
    simp only [find_best_match_go] at h
    by_cases hcond : calculate_similarity t c ≤ 3 ∧
        ltInf (calculate_similarity t c) (some (calculate_similarity t x)) = true
    · rw [if_pos hcond] at h
      have hc3 : calculate_similarity t c ≤ 3 := hcond.1
      have hlt : calculate_similarity t c < calculate_similarity t x := by
        simpa [ltInf] using hcond.2
      rcases ih c m hc3 h with ⟨rfl, hall⟩ | ⟨l1, l2, hsplit, hm3, hmlt, h1, h2⟩
      · exact Or.inr ⟨[], rest, rfl, hc3, hlt, by simp, hall⟩
      · refine Or.inr ⟨c :: l1, l2, by rw [hsplit]; rfl, hm3, lt_trans hmlt hlt, ?_, h2⟩
        intro c' hc'
        rcases List.mem_cons.mp hc' with rfl | hmem
        · intro _; exact hmlt
        · exact h1 c' hmem
    · rw [if_neg hcond] at h
      have hnot : ¬ (calculate_similarity t c ≤ 3 ∧
          calculate_similarity t c < calculate_similarity t x) := by
        intro hh
        exact hcond ⟨hh.1, by simpa [ltInf] using hh.2⟩
      rcases ih x m hx h with ⟨rfl, hall⟩ | ⟨l1, l2, hsplit, hm3, hmlt, h1, h2⟩
      · refine Or.inl ⟨rfl, ?_⟩
        intro c' hc' hle
        rcases List.mem_cons.mp hc' with rfl | hmem
        · omega
        · exact hall c' hmem hle
      · refine Or.inr ⟨c :: l1, l2, by rw [hsplit]; rfl, hm3, hmlt, ?_, h2⟩
        intro c' hc' hle
        rcases List.mem_cons.mp hc' with rfl | hmem
        · omega
        · exact h1 c' hmem hle

/-- From the initial state a returned match is the first candidate attaining
the minimal qualifying distance. -/
theorem fbm_go_first_min_top (t : PyStr) :
    ∀ (cands : List PyStr) (m : PyStr),
      find_best_match_go t cands none none = some m →
      ∃ l1 l2, cands = l1 ++ m :: l2 ∧
        calculate_similarity t m ≤ 3 ∧
        (∀ c ∈ l1, calculate_similarity t c ≤ 3 →
          calculate_similarity t m < calculate_similarity t c) ∧
        (∀ c ∈ l2, calculate_similarity t c ≤ 3 →
          calculate_similarity t m ≤ calculate_similarity t c) := by
  intro cands
  induction cands with
  | nil => intro m h; exact Option.noConfusion h
  | cons c rest ih =>
    intro m h
    simp only [find_best_match_go] at h
    by_cases hc : calculate_similarity t c ≤ 3
    · rw [if_pos ⟨hc, rfl⟩] at h
      rcases fbm_go_first_min t rest c m hc h with
        ⟨rfl, hall⟩ | ⟨l1, l2, hsplit, hm3, hmlt, h1, h2⟩
      · exact ⟨[], rest, rfl, hc, by simp, hall⟩
      · refine ⟨c :: l1, l2, by rw [hsplit]; rfl, hm3, ?_, h2⟩
        intro c' hc' hle
        rcases List.mem_cons.mp hc' with rfl | hmem
        · exact hmlt
        · exact h1 c' hmem hle
    · rw [if_neg (fun hh => hc hh.1)] at h
      rcases ih m h with ⟨l1, l2, hsplit, hm3, h1, h2⟩
      refine ⟨c :: l1, l2, by rw [hsplit]; rfl, hm3, ?_, h2⟩
      intro c' hc' hle
      rcases List.mem_cons.mp hc' with rfl | hmem
      · exact absurd hle hc
      · exact h1 c' hmem hle

/-- C4: find_best_match returns a match exactly when some candidate scores at
most 3 against the target, any returned match scores at most 3, and an empty
candidate list yields no match. -/
theorem find_best_match_threshold (t : PyStr) (cands : List PyStr) :
    ((find_best_match t cands).isSome ↔
      ∃ c ∈ cands, calculate_similarity t c ≤ 3) ∧
    (∀ m, find_best_match t cands = some m → calculate_similarity t m ≤ 3) ∧
    find_best_match t [] = none := by
  refine ⟨⟨?_, ?_⟩, ?_, rfl⟩
  · intro h
    rcases Option.isSome_iff_exists.mp h with ⟨m, hm⟩
    rcases fbm_go_mem t cands none none m hm with h1 | h1
    · exact Option.noConfusion h1
    · exact ⟨m, h1,
        fbm_go_le_three t cands none none m (fun y hy => Option.noConfusion hy) hm⟩
  · rintro ⟨c, hc, hle⟩
    cases h : find_best_match t cands with
    | none => exact absurd hle ((fbm_go_none_iff t cands).mp h c hc)
    | some m => rfl
  · intro m h
    exact fbm_go_le_three t cands none none m (fun y hy => Option.noConfusion hy) h

/-- Witness for C4: on the reference source columns, firstname is matched to
first_name and the threshold bound holds there. -/
theorem find_best_match_threshold_witness :
    find_best_match (pystr "firstname")
        [pystr "customer_id", pystr "first_name", pystr "last_name", pystr "email"] =
      some (pystr "first_name") ∧
    calculate_similarity (pystr "firstname") (pystr "first_name") ≤ 3 :=
  ⟨by decide,
    (find_best_match_threshold (pystr "firstname")
      [pystr "customer_id", pystr "first_name", pystr "last_name", pystr "email"]).2.1
      (pystr "first_name") (by decide)⟩

/-- C5: a returned match is the first candidate, in input order, attaining the
minimal qualifying score: every earlier qualifying candidate scores strictly
more, every later qualifying candidate scores no less. -/
theorem find_best_match_first_minimal (t : PyStr) (cands : List PyStr) (m : PyStr)
    (h : find_best_match t cands = some m) :
    ∃ l1 l2, cands = l1 ++ m :: l2 ∧
      calculate_similarity t m ≤ 3 ∧
      (∀ c ∈ l1, calculate_similarity t c ≤ 3 →
        calculate_similarity t m < calculate_similarity t c) ∧
      (∀ c ∈ l2, calculate_similarity t c ≤ 3 →
        calculate_similarity t m ≤ calculate_similarity t c) :=
  fbm_go_first_min_top t cands m h

/-- Witness for C5: with two candidates tied at distance 1, the first one in
input order is returned. -/
theorem find_best_match_first_minimal_witness :
    ∃ l1 l2, [pystr "ad", pystr "ax"] = l1 ++ (pystr "ad") :: l2 ∧
      calculate_similarity (pystr "ab") (pystr "ad") ≤ 3 ∧
      (∀ c ∈ l1, calculate_similarity (pystr "ab") c ≤ 3 →
        calculate_similarity (pystr "ab") (pystr "ad") < calculate_similarity (pystr "ab") c) ∧
      (∀ c ∈ l2, calculate_similarity (pystr "ab") c ≤ 3 →
        calculate_similarity (pystr "ab") (pystr "ad") ≤ calculate_similarity (pystr "ab") c) :=
  find_best_match_first_minimal (pystr "ab") [pystr "ad", pystr "ax"] (pystr "ad")
    (by decide)

/-! Helper lemmas about the decision-table builder. -/

/-- A returned match is one of the candidates. -/
theorem mem_of_find_best_match (t : PyStr) (cands : List PyStr) (m : PyStr)
    (h : find_best_match t cands = some m) : m ∈ cands := by
  rcases fbm_go_mem t cands none none m h with h1 | h1
  · exact Option.noConfusion h1
  · exact h1

/-- Candidates are unconsumed source column names. -/
theorem available_mem (tabi_metadata : List ColumnMeta) (used : List PyStr)
    (c : PyStr) (hc : c ∈ available_cols tabi_metadata used) :
    c ∈ tabi_metadata.map ColumnMeta.column_name ∧ c ∉ used := by
  have h := List.mem_filter.mp hc
  exact ⟨h.1, by simpa using h.2⟩

/-- The two shapes of one loop step: no truthy match, emitting an unmatched row
and leaving the consumed set alone, or a truthy (nonempty) match bm, consumed
and looked up in the source table. -/
theorem decision_step_cases (tabi_metadata : List ColumnMeta) (r : ColumnMeta)
    (used : List PyStr) :
    decision_step tabi_metadata r used =
      (⟨true, r.column_name, r.comment, [], [],
        if r.comment ≠ [] then r.comment else []⟩, used) ∨
    ∃ bm, bm ≠ [] ∧
      find_best_match r.column_name (available_cols tabi_metadata used) = some bm ∧
      decision_step tabi_metadata r used =
        (⟨true, r.column_name, r.comment, bm, lookup_comment tabi_metadata bm,
          if r.comment ≠ [] then r.comment
          else if lookup_comment tabi_metadata bm ≠ [] then lookup_comment tabi_metadata bm
          else []⟩, bm :: used) := by
  cases hb : find_best_match r.column_name (available_cols tabi_metadata used) with
  | none => exact Or.inl (by simp [decision_step, hb])
  | some bm =>
    by_cases hbm : bm = []
    · subst hbm
      exact Or.inl (by simp [decision_step, hb])
    · exact Or.inr ⟨bm, hbm, rfl, by simp [decision_step, hb, hbm]⟩

/-- Shape of every emitted row: apply defaults to true, the target fields copy
the target column, the proposed comment follows the priority rule, and the
source fields are either both empty or a nonempty source column name with its
looked-up comment. -/
theorem mem_create_go (tabi_metadata : List ColumnMeta) :
    ∀ (tabo : List ColumnMeta) (used : List PyStr) (row : DecisionRow),
      row ∈ create_decision_table_go tabi_metadata tabo used →
      row.sostituire = true ∧
      (∃ r ∈ tabo, row.colonna_tabo = r.column_name ∧ row.comment_tabo = r.comment) ∧
      row.descrizione_proposta =
        (if row.comment_tabo ≠ [] then row.comment_tabo
         else if row.comment_tabi ≠ [] then row.comment_tabi else []) ∧
      ((row.colonna_tabi = [] ∧ row.comment_tabi = []) ∨
        (row.colonna_tabi ≠ [] ∧
          row.colonna_tabi ∈ tabi_metadata.map ColumnMeta.column_name ∧
          row.comment_tabi = lookup_comment tabi_metadata row.colonna_tabi)) := by
  intro tabo
  induction tabo with
  | nil => intro used row h; exact absurd h (List.not_mem_nil row)
  | cons r rest ih =>
    intro used row h
    simp only [create_decision_table_go] at h
    rcases List.mem_cons.mp h with rfl | hmem
    · rcases decision_step_cases tabi_metadata r used with heq | ⟨bm, hbm, hfb, heq⟩
      · rw [heq]
        exact ⟨rfl, ⟨r, List.mem_cons_self r rest, rfl, rfl⟩, by simp, Or.inl ⟨rfl, rfl⟩⟩
      · rw [heq]
        have hmm : bm ∈ tabi_metadata.map ColumnMeta.column_name :=
          (available_mem tabi_metadata used bm
            (mem_of_find_best_match _ _ bm hfb)).1
        exact ⟨rfl, ⟨r, List.mem_cons_self r rest, rfl, rfl⟩, rfl,
          Or.inr ⟨hbm, hmm, rfl⟩⟩
    · rcases ih _ row hmem with ⟨hs, ⟨r', hr', h1, h2⟩, hd, hlink⟩
      exact ⟨hs, ⟨r', List.mem_cons_of_mem _ hr', h1, h2⟩, hd, hlink⟩

/-- The decision table lists the target columns in target order. -/
theorem create_go_map (tabi_metadata : List ColumnMeta) :
    ∀ (tabo : List ColumnMeta) (used : List PyStr),
      (create_decision_table_go tabi_metadata tabo used).map DecisionRow.colonna_tabo =
        tabo.map ColumnMeta.column_name := by
  intro tabo
  induction tabo with
  | nil => intro used; rfl
  | cons r rest ih =>
    intro used
    simp only [create_decision_table_go, List.map_cons]
    have hh : (decision_step tabi_metadata r used).1.colonna_tabo = r.column_name := by
      rcases decision_step_cases tabi_metadata r used with heq | ⟨bm, _, _, heq⟩ <;> rw [heq]
    rw [hh, ih]

/-- Counting rows matched to a given nonempty source name: zero when the name
is already consumed, at most one in any case. -/
theorem create_go_count (tabi_metadata : List ColumnMeta) :
    ∀ (tabo : List ColumnMeta) (used : List PyStr) (name : PyStr), name ≠ [] →
      (name ∈ used →
        (create_decision_table_go tabi_metadata tabo used).countP
          (fun row => decide (row.colonna_tabi = name)) = 0) ∧
      (create_decision_table_go tabi_metadata tabo used).countP
          (fun row => decide (row.colonna_tabi = name)) ≤ 1 := by
  intro tabo
  induction tabo with
  | nil =>
    intro used name _
    exact ⟨fun _ => rfl, by simp [create_decision_table_go]⟩
  | cons r rest ih =>
    intro used name hname
    simp only [create_decision_table_go]
    rcases decision_step_cases tabi_metadata r used with heq | ⟨bm, hbm, hfb, heq⟩
    · rw [heq]
      have hhead : (([] : PyStr) = name) = False := eq_false fun hh => hname hh.symm
      simp only [List.countP_cons, hhead, decide_False, Bool.false_eq_true, if_false,
        Nat.add_zero]
      exact ih used name hname
    · rw [heq]
      have hbmused : bm ∉ used :=
        (available_mem tabi_metadata used bm (mem_of_find_best_match _ _ bm hfb)).2
      by_cases hn : name = bm
      · subst hn
        refine ⟨fun hus => absurd hus hbmused, ?_⟩
        have h0 := (ih (name :: used) name hname).1 (List.mem_cons_self name used)
        simp only [List.countP_cons, h0]
        simp
      · have hhead : (bm = name) = False := eq_false fun hh => hn hh.symm
        constructor
        · intro hus
          have h0 := (ih (bm :: used) name hname).1 (List.mem_cons_of_mem _ hus)
          simp [List.countP_cons, h0, hhead]
        · have hle := (ih (bm :: used) name hname).2
          simpa [List.countP_cons, hhead] using hle

/-- The comment lookup returns the comment of the first source row bearing the
given name. -/
theorem lookup_comment_first (tabi_metadata : List ColumnMeta) (name : PyStr)
    (h : name ∈ tabi_metadata.map ColumnMeta.column_name) :
    ∃ l1 x l2, tabi_metadata = l1 ++ x :: l2 ∧ x.column_name = name ∧
      (∀ y ∈ l1, y.column_name ≠ name) ∧
      lookup_comment tabi_metadata name = x.comment := by
  induction tabi_metadata with
  | nil => simp at h
  | cons z rest ih =>
    by_cases hz : z.column_name = name
    · refine ⟨[], z, rest, rfl, hz, by simp, ?_⟩
      simp only [lookup_comment]
      rw [List.find?_cons_of_pos _ (by simp [hz])]
      rfl
    · have h' : name ∈ rest.map ColumnMeta.column_name := by
        rcases List.mem_map.mp h with ⟨y, hy, hyn⟩
        rcases List.mem_cons.mp hy with rfl | hmem
        · exact absurd hyn hz
        · exact List.mem_map.mpr ⟨y, hmem, hyn⟩
      rcases ih h' with ⟨l1, x, l2, hsplit, hx, hl1, hlook⟩
      refine ⟨z :: l1, x, l2, by rw [hsplit]; rfl, hx, ?_, ?_⟩
      · intro y hy
        rcases List.mem_cons.mp hy with rfl | hmem
        · exact hz
        · exact hl1 y hmem
      · rw [← hlook]
        simp only [lookup_comment]
        rw [List.find?_cons_of_neg _ (by simp [hz])]

/-- C1: every row's proposed comment follows the fixed priority: the target
column's own comment when nonempty, else the matched source column's comment
when nonempty, else empty; in an unmatched row the source comment is empty,
and in a matched row it is the looked-up comment of the matched source column. -/
theorem create_decision_table_proposed_priority (tabi_metadata tabo_metadata : List ColumnMeta)
    (row : DecisionRow) (h : row ∈ create_decision_table tabi_metadata tabo_metadata) :
    (∃ r ∈ tabo_metadata, row.colonna_tabo = r.column_name ∧
      row.comment_tabo = r.comment) ∧
    row.descrizione_proposta =
      (if row.comment_tabo ≠ [] then row.comment_tabo
       else if row.comment_tabi ≠ [] then row.comment_tabi else []) ∧
    (row.colonna_tabi = [] → row.comment_tabi = []) ∧
    (row.colonna_tabi ≠ [] →
      row.comment_tabi = lookup_comment tabi_metadata row.colonna_tabi) := by
  rcases mem_create_go tabi_metadata tabo_metadata [] row h with ⟨_, htgt, hd, hlink⟩
  refine ⟨htgt, hd, ?_, ?_⟩
  · intro hnil
    rcases hlink with ⟨_, h2⟩ | ⟨hne, _, _⟩
    · exact h2
    · exact absurd hnil hne
  · intro hne
    rcases hlink with ⟨h1, _⟩ | ⟨_, _, h3⟩
    · exact absurd h1 hne
    · exact h3

/-- Witness for C1 at the firstname row of the reference scenario: the target
comment is empty, so the matched source comment is proposed. -/
theorem create_decision_table_proposed_priority_witness :
    (∃ r ∈ tabo_ref, row_firstname.colonna_tabo = r.column_name ∧
      row_firstname.comment_tabo = r.comment) ∧
    row_firstname.descrizione_proposta =
      (if row_firstname.comment_tabo ≠ [] then row_firstname.comment_tabo
       else if row_firstname.comment_tabi ≠ [] then row_firstname.comment_tabi else []) ∧
    (row_firstname.colonna_tabi = [] → row_firstname.comment_tabi = []) ∧
    (row_firstname.colonna_tabi ≠ [] →
      row_firstname.comment_tabi = lookup_comment tabi_ref row_firstname.colonna_tabi) :=
  create_decision_table_proposed_priority tabi_ref tabo_ref row_firstname (by decide)

/-- C2: a nonempty source column name occupies colonna_tabi in at most one row,
and every nonempty colonna_tabi is a source column name: the consumed set makes
the match a partial injective mapping from target columns to source columns. -/
theorem create_decision_table_injective (tabi_metadata tabo_metadata : List ColumnMeta)
    (name : PyStr) (hname : name ≠ []) :
    (create_decision_table tabi_metadata tabo_metadata).countP
        (fun row => decide (row.colonna_tabi = name)) ≤ 1 ∧
    ∀ row ∈ create_decision_table tabi_metadata tabo_metadata, row.colonna_tabi ≠ [] →
      row.colonna_tabi ∈ tabi_metadata.map ColumnMeta.column_name := by
  refine ⟨(create_go_count tabi_metadata tabo_metadata [] name hname).2, ?_⟩
  intro row h hne
  rcases mem_create_go tabi_metadata tabo_metadata [] row h with ⟨_, _, _, hlink⟩
  rcases hlink with ⟨h1, _⟩ | ⟨_, h2, _⟩
  · exact absurd h1 hne
  · exact h2

/-- Witness for C2 at the reference scenario and the source name first_name. -/
theorem create_decision_table_injective_witness :
    (create_decision_table tabi_ref tabo_ref).countP
        (fun row => decide (row.colonna_tabi = pystr "first_name")) ≤ 1 ∧
    ∀ row ∈ create_decision_table tabi_ref tabo_ref, row.colonna_tabi ≠ [] →
      row.colonna_tabi ∈ tabi_ref.map ColumnMeta.column_name :=
  create_decision_table_injective tabi_ref tabo_ref (pystr "first_name") (by decide)

/-- C3: the decision table has one row per target column, listing the target
column names in target order, and every row's apply flag is initialized true. -/
theorem create_decision_table_shape (tabi_metadata tabo_metadata : List ColumnMeta) :
    (create_decision_table tabi_metadata tabo_metadata).length = tabo_metadata.length ∧
    (create_decision_table tabi_metadata tabo_metadata).map DecisionRow.colonna_tabo =
      tabo_metadata.map ColumnMeta.column_name ∧
    ∀ row ∈ create_decision_table tabi_metadata tabo_metadata, row.sostituire = true := by
  refine ⟨?_, create_go_map tabi_metadata tabo_metadata [], ?_⟩
  · have hh := congrArg List.length (create_go_map tabi_metadata tabo_metadata [])
    simpa using hh
  · intro row h
    exact (mem_create_go tabi_metadata tabo_metadata [] row h).1

/-- Witness for C3 at the reference scenario and its user_id row. -/
theorem create_decision_table_shape_witness :
    (create_decision_table tabi_ref tabo_ref).length = tabo_ref.length ∧
    row_user_id.sostituire = true :=
  ⟨(create_decision_table_shape tabi_ref tabo_ref).1,
    (create_decision_table_shape tabi_ref tabo_ref).2.2 row_user_id (by decide)⟩

/-- C7: the builder is total: it yields one row per target column on any
inputs, an empty target table yields an empty decision table, and with an
empty source table every row is unmatched. -/
theorem create_decision_table_total (tabi_metadata tabo_metadata : List ColumnMeta) :
    (create_decision_table tabi_metadata tabo_metadata).length = tabo_metadata.length ∧
    create_decision_table tabi_metadata ([] : List ColumnMeta) = [] ∧
    ∀ row ∈ create_decision_table ([] : List ColumnMeta) tabo_metadata,
      row.colonna_tabi = [] ∧ row.comment_tabi = [] := by
  refine ⟨?_, rfl, ?_⟩
  · have hh := congrArg List.length (create_go_map tabi_metadata tabo_metadata [])
    simpa using hh
  · intro row h
    rcases mem_create_go [] tabo_metadata [] row h with ⟨_, _, _, hlink⟩
    rcases hlink with h1 | ⟨_, h2, _⟩
    · exact h1
    · exact absurd h2 (by simp)

/-- Witness for C7 at the reference target table with an empty source table. -/
theorem create_decision_table_total_witness :
    (create_decision_table tabi_ref tabo_ref).length = tabo_ref.length ∧
    row_user_id.colonna_tabi = [] ∧ row_user_id.comment_tabi = [] :=
  ⟨(create_decision_table_total tabi_ref tabo_ref).1,
    (create_decision_table_total tabi_ref tabo_ref).2.2 row_user_id (by decide)⟩

/-- C8: even when source column names repeat, no fault arises: every matched
row's source comment is the comment of the first source row, in source
iteration order, bearing the matched name. -/
theorem create_decision_table_first_lookup (tabi_metadata tabo_metadata : List ColumnMeta)
    (row : DecisionRow) (h : row ∈ create_decision_table tabi_metadata tabo_metadata)
    (hm : row.colonna_tabi ≠ []) :
    ∃ l1 x l2, tabi_metadata = l1 ++ x :: l2 ∧ x.column_name = row.colonna_tabi ∧
      (∀ y ∈ l1, y.column_name ≠ row.colonna_tabi) ∧
      row.comment_tabi = x.comment := by
  rcases mem_create_go tabi_metadata tabo_metadata [] row h with ⟨_, _, _, hlink⟩
  rcases hlink with ⟨h1, _⟩ | ⟨_, hmem, hcomm⟩
  · exact absurd h1 hm
  · rcases lookup_comment_first tabi_metadata _ hmem with ⟨l1, x, l2, hsplit, hx, hl1, hlook⟩
    exact ⟨l1, x, l2, hsplit, hx, hl1, by rw [hcomm, hlook]⟩

/-- Witness for C8 on a source table with a duplicated column name: the first
of the two rows named ab supplies the comment. -/
theorem create_decision_table_first_lookup_witness :
    ∃ l1 x l2, tabi_dup = l1 ++ x :: l2 ∧
      x.column_name = row_dup.colonna_tabi ∧
      (∀ y ∈ l1, y.column_name ≠ row_dup.colonna_tabi) ∧
      row_dup.comment_tabi = x.comment :=
  create_decision_table_first_lookup tabi_dup tabo_dup row_dup (by decide) (by decide)

/-- C9: on the reference scenario of src/test_logic.py the builder returns
exactly the five expected rows: user_id unmatched with empty proposal,
firstname matched to first_name, lastname matched to last_name, email_addr
unmatched with empty proposal, status unmatched keeping its own comment. -/
theorem create_decision_table_reference :
    create_decision_table tabi_ref tabo_ref =
      [⟨true, pystr "user_id", [], [], [], []⟩,
       ⟨true, pystr "firstname", [], pystr "first_name", pystr "Customer first name",
         pystr "Customer first name"⟩,
       ⟨true, pystr "lastname", [], pystr "last_name", pystr "Customer last name",
         pystr "Customer last name"⟩,
       ⟨true, pystr "email_addr", [], [], [], []⟩,
       ⟨true, pystr "status", pystr "User status", [], [], pystr "User status"⟩] ∧
    (create_decision_table tabi_ref tabo_ref).length = 5 := by
  constructor <;> decide

/-- C10: when the matcher selects a source column named by the empty string,
the truthiness test on best_match treats it exactly like no match: the target
column's row is emitted unmatched and the consumed set is left unchanged, so
the empty-named source column is never consumed and never appears in a row. -/
theorem create_decision_table_empty_name_match (tabi_metadata : List ColumnMeta)
    (r : ColumnMeta) (rest : List ColumnMeta) (used : List PyStr)
    (h : find_best_match r.column_name (available_cols tabi_metadata used) =
      some ([] : PyStr)) :
    create_decision_table_go tabi_metadata (r :: rest) used =
      (⟨true, r.column_name, r.comment, [], [],
        if r.comment ≠ [] then r.comment else []⟩ : DecisionRow) ::
      create_decision_table_go tabi_metadata rest used := by
  have hstep : decision_step tabi_metadata r used =
      (⟨true, r.column_name, r.comment, [], [],
        if r.comment ≠ [] then r.comment else []⟩, used) := by
    simp [decision_step, h]
  simp only [create_decision_table_go, hstep]

/-- Witness for C10: a source column named by the empty string is selected by
the matcher for target ab, yet the emitted row is unmatched and the consumed
set stays empty. -/
theorem create_decision_table_empty_name_match_witness :
    find_best_match col_ab.column_name (available_cols tabi_empty_name []) =
      some ([] : PyStr) ∧
    create_decision_table_go tabi_empty_name [col_ab] [] =
      (⟨true, col_ab.column_name, col_ab.comment, [], [],
        if col_ab.comment ≠ [] then col_ab.comment else []⟩ : DecisionRow) ::
      create_decision_table_go tabi_empty_name [] [] :=
  ⟨by decide,
    create_decision_table_empty_name_match tabi_empty_name col_ab [] [] (by decide)⟩

end Tabitabo
